import Mathlib

/-!
Verification development for the disha_ai conversational health-coaching
backend.  The Python sources are shallowly embedded as follows:

* text is `List Char` (Python strings are sequences of code points);
* the SQLAlchemy tables become Lean lists of rows held in an `AppState`
  record, SQL `ORDER BY` becomes an explicit insertion sort by the same
  key, `first()` becomes `List.find?` on table order, and in-place row
  mutation becomes replacement of the first matching row;
* the tokenizer behind `count_tokens` (tiktoken, external to the
  repository) is an arbitrary parameter `tc : Text → Nat`; the documented
  `len // 4` fallback is available as a concrete instance;
* Python float arithmetic in `truncate_context` (a single
  `int(max_content_tokens * (length / content_tokens))`) is modelled by
  the exact rational value truncated toward zero, which `Int.div` computes;
* the network calls to the LLM providers are modelled by explicit
  outcome parameters (`Except` for generation, a plain list for the
  never-raising extraction), and Python exceptions by `Except`/`Option`
  results (`ZeroDivisionError` in the degraded truncation path included).
-/

/-- Text modelled as a list of characters: Python strings are sequences of
code points, and `len`, slicing and `in` operate on those. -/
abbrev Text := List Char

/-- Python `str.lower()` applied characterwise. -/
def lowerText (t : Text) : Text := t.map Char.toLower

/-- Python substring test `needle in hay`. -/
def containsSub (hay needle : Text) : Bool := decide (needle <:+: hay)

/-- Python `sep.join(parts)`. -/
def joinSep (sep : Text) : List Text → Text
  | [] => []
  | [t] => t
  | t :: ts => t ++ sep ++ joinSep sep ts

/-- Python slice `s[:k]` for an arbitrary (possibly negative) integer
bound: a nonnegative `k` keeps the first `k` characters, a negative `k`
drops the last `-k` characters (never going below the empty string). -/
def pySliceTo (s : Text) (k : Int) : Text :=
  if 0 ≤ k then s.take k.toNat else s.take (s.length - (-k).toNat)

/-- One entry of the `messages` list handed to the LLM service: a Python
dict `{"role": ..., "content": ...}` (llm_service.py). -/
structure Msg where
  role : Text
  content : Text
  deriving DecidableEq

/-- Total token count of a message list, per the service tokenizer `tc`
(`count_tokens` summed over the `content` fields). -/
def sumTokens (tc : Text → Nat) (l : List Msg) : Nat :=
  (l.map (fun m => tc m.content)).sum

/-- The accumulation loop of `truncate_context` (llm_service.py lines
79-87): walk the reversed history (newest first), keep a running token
total `cur`, and stop at the first message that would push the total over
`avail`.  Returns the kept messages, newest first. -/
def takeWhileBudget (tc : Text → Nat) (avail : Int) : Nat → List Msg → List Msg
  | _, [] => []
  | cur, m :: rest =>
    if ((cur + tc m.content : Nat) : Int) ≤ avail then
      m :: takeWhileBudget tc avail (cur + tc m.content) rest
    else []

/-- `LLMService.truncate_context` (llm_service.py lines 59-104).
`tc` stands for `count_tokens`; `max_tokens` is the explicit argument
(defaulting at the call sites to `settings.MAX_CONTEXT_TOKENS`).
Returns `none` exactly where the Python raises: the degraded path divides
by `content_tokens`, a `ZeroDivisionError` when that count is zero.
The Python computes `int(max_content_tokens * (len / content_tokens))`
with float division; we model the exact rational truncated toward zero,
which `Int.div` computes since `content_tokens > 0` there. -/
def truncate_context (tc : Text → Nat) (messages : List Msg)
    (system_prompt : Text) (max_tokens max_response_tokens : Int) :
    Option (List Msg) :=
  let system_tokens : Int := tc system_prompt
  let available_tokens : Int := max_tokens - system_tokens - max_response_tokens
  let truncated := (takeWhileBudget tc available_tokens 0 messages.reverse).reverse
  if truncated.isEmpty && !messages.isEmpty then
    match messages.getLast? with
    | none => none
    | some last =>
      let max_content_tokens : Int := available_tokens - 100
      let content_tokens : Int := tc last.content
      if content_tokens > max_content_tokens then
        if content_tokens = 0 then none
        else
          let max_chars : Int :=
            Int.tdiv (max_content_tokens * (last.content.length : Int)) content_tokens
          some [{ last with content := pySliceTo last.content max_chars ++ "...".toList }]
      else some [last]
  else some truncated

/-- The `len(text) // 4` fallback estimate used by `count_tokens` when the
tokenizer fails; also a convenient concrete tokenizer for instances. -/
def tcEst (t : Text) : Nat := t.length / 4

theorem takeWhileBudget_sum (tc : Text → Nat) (avail : Int) :
    ∀ (l : List Msg) (cur : Nat), (cur : Int) ≤ avail →
      (cur : Int) + sumTokens tc (takeWhileBudget tc avail cur l) ≤ avail := by
  intro l
  induction l with
  | nil => intro cur h; simpa [takeWhileBudget, sumTokens] using h
  | cons m rest ih =>
    intro cur h
    by_cases hfit : ((cur + tc m.content : Nat) : Int) ≤ avail
    · have h2 := ih (cur + tc m.content) hfit
      simp only [takeWhileBudget, if_pos hfit, sumTokens, List.map_cons, List.sum_cons]
      simp only [sumTokens] at h2
      push_cast at h2 ⊢
      omega
    · simp only [takeWhileBudget, if_neg hfit, sumTokens, List.map_nil, List.sum_nil]
      omega

theorem takeWhileBudget_prefix (tc : Text → Nat) (avail : Int) :
    ∀ (l : List Msg) (cur : Nat), takeWhileBudget tc avail cur l <+: l := by
  intro l
  induction l with
  | nil => intro cur; simp [takeWhileBudget]
  | cons m rest ih =>
    intro cur
    by_cases hfit : ((cur + tc m.content : Nat) : Int) ≤ avail
    · simp only [takeWhileBudget, if_pos hfit]
      obtain ⟨t, ht⟩ := ih (cur + tc m.content)
      exact ⟨t, by simp [ht]⟩
    · simp only [takeWhileBudget, if_neg hfit]
      exact List.nil_prefix

theorem takeWhileBudget_ne_nil (tc : Text → Nat) (avail : Int)
    (m : Msg) (rest : List Msg) (hfit : ((tc m.content : Nat) : Int) ≤ avail) :
    takeWhileBudget tc avail 0 (m :: rest) ≠ [] := by
  simp only [takeWhileBudget, Nat.zero_add]
  rw [if_pos (by simpa using hfit)]
  simp

theorem pySliceTo_prefix (s : Text) (k : Int) : pySliceTo s k <+: s := by
  unfold pySliceTo
  split
  · exact List.take_prefix _ _
  · exact List.take_prefix _ _

theorem sumTokens_reverse (tc : Text → Nat) (l : List Msg) :
    sumTokens tc l.reverse = sumTokens tc l := by
  simp [sumTokens, List.map_reverse, List.sum_reverse]

/-- C1 (amended): whenever the most recent turn of a non-empty history fits
the budget left by the instruction text and the reply reservation (so the
degraded hard-truncation path of `truncate_context` is not taken), the
returned sequence's total token count plus the instruction's token count
plus `max_response_tokens` does not exceed `max_tokens`; and a non-empty
history yields a non-empty result.  (The unamended claim fails on the
degraded path, see `c1_counterexample`.) -/
theorem c1_truncate_budget (tc : Text → Nat) (messages : List Msg)
    (system_prompt : Text) (max_tokens max_response_tokens : Int)
    (hlast : ∀ m, messages.getLast? = some m →
      (tc m.content : Int) + tc system_prompt + max_response_tokens ≤ max_tokens)
    (hempty : messages = [] →
      (tc system_prompt : Int) + max_response_tokens ≤ max_tokens) :
    ∃ r, truncate_context tc messages system_prompt max_tokens max_response_tokens = some r ∧
      (sumTokens tc r : Int) + tc system_prompt + max_response_tokens ≤ max_tokens ∧
      (messages ≠ [] → r ≠ []) := by
  rcases h : messages.reverse with _ | ⟨m, t⟩
  · have hm : messages = [] := List.reverse_eq_nil_iff.mp h
    subst hm
    refine ⟨[], ?_, ?_, ?_⟩
    · simp [truncate_context, takeWhileBudget]
    · simpa [sumTokens] using hempty rfl
    · simp
  · have hlast2 : messages.getLast? = some m := by
      rw [← List.head?_reverse, h]; rfl
    have hfit := hlast m hlast2
    have h0 : ((tc m.content : Nat) : Int) ≤
        max_tokens - (tc system_prompt : Int) - max_response_tokens := by omega
    have hw : takeWhileBudget tc (max_tokens - (tc system_prompt : Int) - max_response_tokens)
        0 messages.reverse
        = m :: takeWhileBudget tc (max_tokens - (tc system_prompt : Int) - max_response_tokens)
            (tc m.content) t := by
      rw [h]
      simp only [takeWhileBudget, Nat.zero_add]
      rw [if_pos h0]
    have hsum := takeWhileBudget_sum tc
      (max_tokens - (tc system_prompt : Int) - max_response_tokens) messages.reverse 0
      (by simpa using le_trans (Int.ofNat_nonneg (tc m.content)) h0)
    have htwne : takeWhileBudget tc (max_tokens - (tc system_prompt : Int) - max_response_tokens)
        0 messages.reverse ≠ [] := by
      rw [hw]; simp
    refine ⟨(takeWhileBudget tc (max_tokens - (tc system_prompt : Int) - max_response_tokens)
        0 messages.reverse).reverse, ?_, ?_, ?_⟩
    · unfold truncate_context
      have hie : (takeWhileBudget tc
          (max_tokens - (tc system_prompt : Int) - max_response_tokens)
          0 messages.reverse).reverse.isEmpty = false := by
        simp [List.isEmpty_iff, htwne]
      simp [hie]
    · rw [sumTokens_reverse]
      omega
    · intro _
      simp [htwne]

/-- C1 counterexample: with the documented `len // 4` fallback tokenizer,
a 20-character instruction, `max_tokens = 3` and `max_response_tokens = 0`,
the degraded path of `truncate_context` still returns a (truncated) turn,
and the returned tokens plus instruction tokens plus the reply reservation
exceed `max_tokens` — the unamended budget inequality is false. -/
theorem c1_counterexample :
    truncate_context tcEst [⟨"user".toList, "bbbb".toList⟩]
        ("aaaaaaaaaaaaaaaaaaaa".toList) 3 0
      = some [⟨"user".toList, "...".toList⟩] ∧
    ¬ ((sumTokens tcEst [⟨"user".toList, "...".toList⟩] : Int)
        + tcEst ("aaaaaaaaaaaaaaaaaaaa".toList) + 0 ≤ 3) := by
  constructor
  · decide
  · decide

/-- C1 witness: the amended budget theorem applied at a concrete history,
instruction and limits. -/
theorem c1_truncate_budget_witness :
    ∃ r, truncate_context tcEst [⟨"user".toList, "hi".toList⟩] [] 100 10 = some r ∧
      (sumTokens tcEst r : Int) + tcEst [] + 10 ≤ 100 ∧
      (([⟨"user".toList, "hi".toList⟩] : List Msg) ≠ [] → r ≠ []) :=
  c1_truncate_budget tcEst [⟨"user".toList, "hi".toList⟩] [] 100 10
    (fun m hm => by
      rw [List.getLast?_singleton] at hm
      cases hm
      decide)
    (fun h => absurd h (by decide))

/-- C5: every sequence actually returned by `truncate_context` is either a
contiguous chronological suffix of the history, or (degraded zero-fit
case) a single turn carrying the last turn's role and a prefix of its
content with an ellipsis appended. -/
theorem c5_truncate_suffix (tc : Text → Nat) (messages : List Msg)
    (system_prompt : Text) (max_tokens max_response_tokens : Int) (r : List Msg)
    (h : truncate_context tc messages system_prompt max_tokens max_response_tokens = some r) :
    r <:+ messages ∨
      ∃ m pre, messages.getLast? = some m ∧ pre <+: m.content ∧
        r = [⟨m.role, pre ++ "...".toList⟩] := by
  simp only [truncate_context] at h
  split at h
  · -- degraded branch: the greedy walk admitted nothing and the history is non-empty
    split at h
    · exact absurd h (by simp)
    · next last hlast =>
      split at h
      · split at h
        · exact absurd h (by simp)
        · injection h with h
          subst h
          exact Or.inr ⟨last, pySliceTo last.content _, hlast, pySliceTo_prefix _ _, rfl⟩
      · injection h with h
        subst h
        exact Or.inl ⟨messages.dropLast, List.dropLast_append_getLast? last (hlast ▸ rfl)⟩
  · -- main branch: the reversed greedy walk, a chronological suffix
    injection h with h
    subst h
    exact Or.inl (List.reverse_prefix.mp (by
      simpa using takeWhileBudget_prefix tc
        (max_tokens - (tc system_prompt : Int) - max_response_tokens) messages.reverse 0))

/-- C5 witness: the suffix theorem applied at a concrete history that the
walk admits whole. -/
theorem c5_truncate_suffix_witness :
    ([⟨"user".toList, "hi".toList⟩] : List Msg) <:+ [⟨"user".toList, "hi".toList⟩] ∨
      ∃ m pre, ([⟨"user".toList, "hi".toList⟩] : List Msg).getLast? = some m ∧
        pre <+: m.content ∧
        ([⟨"user".toList, "hi".toList⟩] : List Msg) = [⟨m.role, pre ++ "...".toList⟩] :=
  c5_truncate_suffix tcEst [⟨"user".toList, "hi".toList⟩] [] 100 10
    [⟨"user".toList, "hi".toList⟩] (by decide)

section Sorting

variable {α : Type} (le : α → α → Bool)

/-- Insertion step of the sort modelling SQL `ORDER BY`: place `x` before
the first element it compares `le` to. -/
def insertLe (x : α) : List α → List α
  | [] => [x]
  | y :: ys => if le x y then x :: y :: ys else y :: insertLe x ys

/-- Model of SQL `ORDER BY` by a boolean total preorder `le`: an insertion
sort.  Rows comparing equal may appear in any order relative to each
other, exactly as SQL leaves tie order unspecified; the theorems below
only use sortedness and permutation facts, never tie order. -/
def sortLe : List α → List α
  | [] => []
  | x :: xs => insertLe le x (sortLe xs)

theorem mem_insertLe (x a : α) (l : List α) :
    a ∈ insertLe le x l ↔ a = x ∨ a ∈ l := by
  induction l with
  | nil => simp [insertLe]
  | cons y ys ih =>
    by_cases hxy : le x y = true
    · simp [insertLe, hxy]
    · simp only [insertLe, if_neg hxy, List.mem_cons, ih]
      tauto

theorem mem_sortLe (a : α) (l : List α) : a ∈ sortLe le l ↔ a ∈ l := by
  induction l with
  | nil => simp [sortLe]
  | cons x xs ih => simp [sortLe, mem_insertLe, ih]

theorem length_insertLe (x : α) (l : List α) :
    (insertLe le x l).length = l.length + 1 := by
  induction l with
  | nil => simp [insertLe]
  | cons y ys ih =>
    by_cases hxy : le x y = true
    · simp [insertLe, hxy]
    · simp [insertLe, hxy, ih]

theorem length_sortLe (l : List α) : (sortLe le l).length = l.length := by
  induction l with
  | nil => simp [sortLe]
  | cons x xs ih => simp [sortLe, length_insertLe, ih]

theorem pairwise_insertLe
    (htot : ∀ a b, le a b = true ∨ le b a = true)
    (htrans : ∀ a b c, le a b = true → le b c = true → le a c = true)
    (x : α) (l : List α) (hl : l.Pairwise (fun a b => le a b = true)) :
    (insertLe le x l).Pairwise (fun a b => le a b = true) := by
  induction l with
  | nil => simp [insertLe]
  | cons y ys ih =>
    rw [List.pairwise_cons] at hl
    obtain ⟨hy, hys⟩ := hl
    by_cases hxy : le x y = true
    · rw [insertLe, if_pos hxy, List.pairwise_cons]
      refine ⟨?_, by rw [List.pairwise_cons]; exact ⟨hy, hys⟩⟩
      intro z hz
      rcases List.mem_cons.mp hz with hz | hz
      · exact hz ▸ hxy
      · exact htrans x y z hxy (hy z hz)
    · rw [insertLe, if_neg hxy, List.pairwise_cons]
      refine ⟨?_, ih hys⟩
      intro z hz
      rcases (mem_insertLe le x z ys).mp hz with hz | hz
      · rw [hz]
        rcases htot x y with h | h
        · exact absurd h hxy
        · exact h
      · exact hy z hz

theorem pairwise_sortLe
    (htot : ∀ a b, le a b = true ∨ le b a = true)
    (htrans : ∀ a b c, le a b = true → le b c = true → le a c = true)
    (l : List α) : (sortLe le l).Pairwise (fun a b => le a b = true) := by
  induction l with
  | nil => simp [sortLe]
  | cons x xs ih => exact pairwise_insertLe le htot htrans x _ ih

theorem insertLe_eq_append (x : α) (l : List α)
    (hall : ∀ y ∈ l, le x y = false) : insertLe le x l = l ++ [x] := by
  induction l with
  | nil => simp [insertLe]
  | cons y ys ih =>
    rw [insertLe, if_neg (by simp [hall y (List.mem_cons_self y ys)])]
    simp only [List.cons_append, List.cons.injEq, true_and]
    exact ih fun z hz => hall z (List.mem_cons_of_mem y hz)

/-- Sorting a list whose elements are already strictly in the opposite
order just reverses it: this is how `ORDER BY .. DESC` acts on rows stored
in strictly ascending key order. -/
theorem sortLe_eq_reverse (l : List α)
    (h : l.Pairwise (fun a b => le a b = false)) : sortLe le l = l.reverse := by
  induction l with
  | nil => simp [sortLe]
  | cons x xs ih =>
    rw [List.pairwise_cons] at h
    obtain ⟨hx, hxs⟩ := h
    rw [sortLe, ih hxs, insertLe_eq_append le x xs.reverse
      (fun y hy => hx y (List.mem_reverse.mp hy))]
    simp

end Sorting

/-- The profile dict produced by `UserService.get_user_profile`
(services.py lines 55-67): nullable columns become `Option`, the JSON
list columns are already normalised with `or []` there. -/
structure UserProfile where
  full_name : Option Text
  age : Option Int
  gender : Option Text
  weight : Option Int
  height : Option Int
  medical_conditions : List Text
  medications : List Text
  allergies : List Text
  deriving DecidableEq

/-- A row of the `protocols` table (models.py `Protocol`).  `keywords` and
`trigger_phrases` are the JSON lists after the `or []` normalisation the
matcher applies; the unused `requires_conditions`, `description` and
timestamp columns are not needed by any claim and carry no behaviour in
the matcher, except `description` which we keep for completeness. -/
structure Protocol where
  id : Nat
  name : Text
  category : Text
  keywords : List Text
  trigger_phrases : List Text
  description : Text
  response_template : Text
  priority : Int
  is_active : Bool
  deriving DecidableEq

/-- The dict appended per matched protocol (services.py lines 292-304). -/
structure ProtocolSummary where
  name : Text
  category : Text
  response_template : Text
  priority : Int
  deriving DecidableEq

def summaryOf (p : Protocol) : ProtocolSummary :=
  ⟨p.name, p.category, p.response_template, p.priority⟩

/-- Per-protocol test of `match_protocols` (services.py lines 284-304):
at least one keyword occurs (case-insensitively) in the message, and, if
any trigger phrases are declared, at least one of those occurs too. -/
def protocolMatches (user_message_lower : Text) (p : Protocol) : Bool :=
  (p.keywords.any fun k => containsSub user_message_lower (lowerText k)) &&
  (p.trigger_phrases.isEmpty ||
    p.trigger_phrases.any fun ph => containsSub user_message_lower (lowerText ph))

/-- The `ORDER BY priority DESC` comparison of the protocol query. -/
def priorityDescLe (a b : Protocol) : Bool := decide (b.priority ≤ a.priority)

/-- `ProtocolService.match_protocols` (services.py lines 266-306).  The
active-protocol query is the stored table filtered to `is_active = True`
and sorted by descending priority; matches are collected in that order
and the first three are returned.  As in the source, `user_profile` is
accepted but not consulted. -/
def match_protocols (db : List Protocol) (user_message : Text)
    (user_profile : UserProfile) : List ProtocolSummary :=
  let protocols := sortLe priorityDescLe (db.filter (fun p => p.is_active))
  let user_message_lower := lowerText user_message
  ((protocols.filter (protocolMatches user_message_lower)).map summaryOf).take 3

theorem priorityDescLe_total (a b : Protocol) :
    priorityDescLe a b = true ∨ priorityDescLe b a = true := by
  simp only [priorityDescLe, decide_eq_true_eq]
  omega

theorem priorityDescLe_trans (a b c : Protocol)
    (h1 : priorityDescLe a b = true) (h2 : priorityDescLe b c = true) :
    priorityDescLe a c = true := by
  simp only [priorityDescLe, decide_eq_true_eq] at h1 h2 ⊢
  omega

/-- C4: `match_protocols` returns at most 3 summaries, sorted by priority
descending, and every returned summary arises from a stored protocol with
`is_active = true` (inactive protocols are never returned) for which at
least one keyword occurs as a case-insensitive substring of the message
and, when the protocol declares any trigger phrases, at least one trigger
phrase occurs too; a protocol with no trigger phrases is gated by the
keyword test alone. -/
theorem c4_match_protocols (db : List Protocol) (msg : Text) (profile : UserProfile) :
    (match_protocols db msg profile).length ≤ 3 ∧
    (match_protocols db msg profile).Pairwise (fun a b => b.priority ≤ a.priority) ∧
    ∀ s ∈ match_protocols db msg profile, ∃ p, p ∈ db ∧ p.is_active = true ∧
      s = summaryOf p ∧
      (∃ k ∈ p.keywords, containsSub (lowerText msg) (lowerText k) = true) ∧
      (p.trigger_phrases ≠ [] →
        ∃ ph ∈ p.trigger_phrases, containsSub (lowerText msg) (lowerText ph) = true) := by
  refine ⟨?_, ?_, ?_⟩
  · exact List.length_take_le 3 _
  · have hs := pairwise_sortLe priorityDescLe priorityDescLe_total priorityDescLe_trans
      (db.filter (fun p => p.is_active))
    have hf : ((sortLe priorityDescLe (db.filter (fun p => p.is_active))).filter
        (protocolMatches (lowerText msg))).Pairwise (fun a b => priorityDescLe a b = true) :=
      hs.filter _
    have hm : (((sortLe priorityDescLe (db.filter (fun p => p.is_active))).filter
        (protocolMatches (lowerText msg))).map summaryOf).Pairwise
        (fun a b => b.priority ≤ a.priority) := by
      rw [List.pairwise_map]
      exact hf.imp (by
        intro a b hab
        simpa [priorityDescLe, summaryOf] using hab)
    exact hm.sublist (List.take_sublist _ _)
  · intro s hs
    have hs1 : s ∈ ((sortLe priorityDescLe (db.filter (fun p => p.is_active))).filter
        (protocolMatches (lowerText msg))).map summaryOf :=
      List.mem_of_mem_take hs
    obtain ⟨p, hp, hps⟩ := List.mem_map.mp hs1
    have hp1 := List.mem_filter.mp hp
    have hp2 := (mem_sortLe priorityDescLe p _).mp hp1.1
    have hp3 := List.mem_filter.mp hp2
    refine ⟨p, hp3.1, by simpa using hp3.2, hps.symm, ?_, ?_⟩
    · have := hp1.2
      rw [protocolMatches, Bool.and_eq_true] at this
      obtain ⟨hk, _⟩ := this
      rw [List.any_eq_true] at hk
      exact hk
    · intro hne
      have := hp1.2
      rw [protocolMatches, Bool.and_eq_true] at this
      obtain ⟨_, htr⟩ := this
      rw [Bool.or_eq_true] at htr
      rcases htr with htr | htr
      · exact absurd (List.isEmpty_iff.mp htr) hne
      · rw [List.any_eq_true] at htr
        exact htr

/-- A protocol and profile for concrete instances. -/
def feverProtocol : Protocol :=
  ⟨1, "Fever Management".toList, "symptom".toList, ["fever".toList], [],
    "Protocol for managing fever symptoms".toList, "For fever management".toList, 8, true⟩

def emptyProfile : UserProfile := ⟨none, none, none, none, none, [], [], []⟩

/-- C4 witness: the matcher theorem instantiated at a concrete store and
message. -/
theorem c4_match_protocols_witness :
    (match_protocols [feverProtocol] ("I have a fever".toList) emptyProfile).length ≤ 3 ∧
    (match_protocols [feverProtocol] ("I have a fever".toList) emptyProfile).Pairwise
      (fun a b => b.priority ≤ a.priority) ∧
    ∀ s ∈ match_protocols [feverProtocol] ("I have a fever".toList) emptyProfile,
      ∃ p, p ∈ [feverProtocol] ∧ p.is_active = true ∧ s = summaryOf p ∧
        (∃ k ∈ p.keywords, containsSub (lowerText ("I have a fever".toList)) (lowerText k) = true) ∧
        (p.trigger_phrases ≠ [] →
          ∃ ph ∈ p.trigger_phrases,
            containsSub (lowerText ("I have a fever".toList)) (lowerText ph) = true) :=
  c4_match_protocols [feverProtocol] ("I have a fever".toList) emptyProfile

section UpdateFirst

variable {α : Type} (p : α → Bool) (f : α → α)

/-- Replace the first element satisfying `p` by `f` of it: SQLAlchemy's
in-place mutation of the single row returned by `.filter(..).first()`,
followed by a commit. -/
def updateFirst : List α → List α
  | [] => []
  | x :: xs => if p x then f x :: xs else x :: updateFirst xs

theorem updateFirst_append_left (l l2 : List α) (h : ∀ x ∈ l, p x = false) :
    updateFirst p f (l ++ l2) = l ++ updateFirst p f l2 := by
  induction l with
  | nil => simp
  | cons x xs ih =>
    rw [List.cons_append, updateFirst, if_neg (by simp [h x (List.mem_cons_self x xs)])]
    rw [List.cons_append, ih fun z hz => h z (List.mem_cons_of_mem x hz)]

theorem find?_append_of_none (l l2 : List α) (h : l.find? p = none) :
    (l ++ l2).find? p = l2.find? p := by
  induction l with
  | nil => simp
  | cons x xs ih =>
    cases hpx : p x with
    | true => simp [List.find?_cons, hpx] at h
    | false =>
      simp only [List.find?_cons, hpx] at h
      simp only [List.cons_append, List.find?_cons, hpx]
      exact ih h

theorem find?_updateFirst (l : List α) (x : α) (hf : l.find? p = some x)
    (hpf : p (f x) = true) : (updateFirst p f l).find? p = some (f x) := by
  induction l with
  | nil => simp at hf
  | cons y ys ih =>
    rw [List.find?_cons] at hf
    cases hpy : p y with
    | true =>
      rw [hpy] at hf
      simp only at hf
      cases hf
      rw [updateFirst, if_pos hpy, List.find?_cons, hpf]
    | false =>
      rw [hpy] at hf
      rw [updateFirst, if_neg (by simp [hpy]), List.find?_cons, hpy]
      exact ih hf

theorem mem_updateFirst_self (l : List α) (x : α) (hf : l.find? p = some x) :
    f x ∈ updateFirst p f l := by
  induction l with
  | nil => simp at hf
  | cons y ys ih =>
    rw [List.find?_cons] at hf
    cases hpy : p y with
    | true =>
      rw [hpy] at hf
      simp only at hf
      cases hf
      rw [updateFirst, if_pos hpy]
      exact List.mem_cons_self _ _
    | false =>
      rw [hpy] at hf
      rw [updateFirst, if_neg (by simp [hpy])]
      exact List.mem_cons_of_mem y (ih hf)

theorem mem_updateFirst (l : List α) (y : α) (h : y ∈ updateFirst p f l) :
    y ∈ l ∨ ∃ z ∈ l, p z = true ∧ y = f z := by
  induction l with
  | nil => simp [updateFirst] at h
  | cons x xs ih =>
    rw [updateFirst] at h
    by_cases hpx : p x = true
    · rw [if_pos hpx] at h
      rcases List.mem_cons.mp h with h | h
      · exact Or.inr ⟨x, List.mem_cons_self x xs, hpx, h⟩
      · exact Or.inl (List.mem_cons_of_mem x h)
    · rw [if_neg hpx] at h
      rcases List.mem_cons.mp h with h | h
      · exact Or.inl (h ▸ List.mem_cons_self x xs)
      · rcases ih h with h | ⟨z, hz, hpz, hyz⟩
        · exact Or.inl (List.mem_cons_of_mem x h)
        · exact Or.inr ⟨z, List.mem_cons_of_mem x hz, hpz, hyz⟩

theorem filter_not_updateFirst (l : List α) (hp : ∀ x, p x = true → p (f x) = true) :
    (updateFirst p f l).filter (fun x => !p x) = l.filter (fun x => !p x) := by
  induction l with
  | nil => simp [updateFirst]
  | cons x xs ih =>
    rw [updateFirst]
    by_cases hpx : p x = true
    · rw [if_pos hpx, List.filter_cons, List.filter_cons]
      rw [hp x hpx, hpx]
      simp
    · rw [if_neg hpx, List.filter_cons, List.filter_cons]
      cases hx : p x with
      | true => exact absurd hx hpx
      | false => simp [ih]

theorem pairwise_updateFirst {R : α → α → Prop} (l : List α)
    (hfL : ∀ x y, R x y → R (f x) y) (hfR : ∀ x y, R x y → R x (f y))
    (h : l.Pairwise R) : (updateFirst p f l).Pairwise R := by
  induction l with
  | nil => simp [updateFirst]
  | cons x xs ih =>
    rw [List.pairwise_cons] at h
    obtain ⟨hx, hxs⟩ := h
    rw [updateFirst]
    by_cases hpx : p x = true
    · rw [if_pos hpx, List.pairwise_cons]
      exact ⟨fun y hy => hfL x y (hx y hy), hxs⟩
    · rw [if_neg hpx, List.pairwise_cons]
      refine ⟨?_, ih hxs⟩
      intro y hy
      rcases mem_updateFirst p f xs y hy with hy | ⟨z, hz, _, hyz⟩
      · exact hx y hy
      · exact hyz ▸ hfR x z (hx z hz)

end UpdateFirst

/-- A row of the `memories` table (models.py `Memory`).  Timestamps are
instants of a logical clock. -/
structure Memory where
  id : Nat
  user_id : Nat
  category : Text
  key : Text
  value : Text
  importance : Int
  last_accessed_at : Nat
  created_at : Nat
  deriving DecidableEq

/-- Metadata dict attached to an assistant turn: `generate_response`
fills the first five fields (llm_service.py lines 197-202, 220, 233) and
`process_message` adds the last three (services.py lines 451-454).  The
demo branch's `demo_mode` flag is subsumed by the generation oracle. -/
structure MessageMeta where
  provider : Text
  model : Text
  messages_used : Nat
  total_messages : Nat
  tokens_used : Nat
  protocols_used : List Text
  memories_used : Nat
  is_onboarding : Bool
  deriving DecidableEq

/-- A row of the `messages` table (models.py `Message`). -/
structure MessageRow where
  id : Nat
  user_id : Nat
  role : Text
  content : Text
  created_at : Nat
  token_count : Nat
  message_metadata : Option MessageMeta
  deriving DecidableEq

/-- A row of the `typing_indicators` table (models.py `TypingIndicator`). -/
structure TypingRow where
  user_id : Nat
  is_typing : Bool
  updated_at : Nat
  deriving DecidableEq

/-- A row of the `users` table (models.py `User`); only the fields the
orchestration core reads, with the JSON list columns already normalised
by the `or []` of `get_user_profile`. -/
structure UserRow where
  id : Nat
  username : Text
  full_name : Option Text
  age : Option Int
  gender : Option Text
  weight : Option Int
  height : Option Int
  medical_conditions : List Text
  medications : List Text
  allergies : List Text
  onboarding_completed : Bool
  deriving DecidableEq

/-- The database state threaded through the services: each table as a list
of rows in insertion order, the autoincrement counters, and a logical
clock standing for `datetime.utcnow()` / SQL `now()`, bumped at every
committed write so stored timestamps are monotone. -/
structure AppState where
  messages : List MessageRow
  memories : List Memory
  protocols : List Protocol
  typing : List TypingRow
  next_message_id : Nat
  next_memory_id : Nat
  now : Nat
  deriving DecidableEq

/-- The dedup filter of `create_memory` (services.py lines 173-183):
same `(user_id, category, key)`. -/
def memMatches (m : Memory) (user_id : Nat) (category key : Text) : Bool :=
  m.user_id == user_id && m.category == category && m.key == key

/-- The identifying triple of a memory row (spec §3 Fact invariant). -/
def tripleOf (m : Memory) : Nat × Text × Text := (m.user_id, m.category, m.key)

/-- At most one Fact per `(userId, category, key)`: no two rows of the
memory table share their identifying triple. -/
abbrev MemInv (rows : List Memory) : Prop :=
  rows.Pairwise (fun a b => tripleOf a ≠ tripleOf b)

theorem memMatches_iff_triple (m : Memory) (u : Nat) (c k : Text) :
    memMatches m u c k = true ↔ tripleOf m = (u, c, k) := by
  simp [memMatches, tripleOf, Prod.ext_iff, and_assoc]

/-- `MemoryService.create_memory` (services.py lines 162-204): upsert by
`(user_id, category, key)`.  If a row exists, its `value`, `importance`
and `last_accessed_at` are overwritten in place and that row is returned;
otherwise a fresh row is appended with the next id and `now` timestamps. -/
def create_memory (st : AppState) (user_id : Nat) (category key value : Text)
    (importance : Int) : AppState × Memory :=
  match st.memories.find? (fun m => memMatches m user_id category key) with
  | some existing =>
    ({ st with
        memories := updateFirst (fun m => memMatches m user_id category key)
          (fun m =>
            { m with
                value := value, importance := importance, last_accessed_at := st.now })
          st.memories,
        now := st.now + 1 },
     { existing with
         value := value, importance := importance, last_accessed_at := st.now })
  | none =>
    let memory : Memory := ⟨st.next_memory_id, user_id, category, key, value,
      importance, st.now, st.now⟩
    ({ st with
        memories := st.memories ++ [memory],
        next_memory_id := st.next_memory_id + 1,
        now := st.now + 1 }, memory)

/-- Lexicographic `ORDER BY importance DESC, last_accessed_at DESC` of
`get_relevant_memories`. -/
def memDescLe (a b : Memory) : Bool :=
  decide (b.importance < a.importance) ||
    (a.importance == b.importance && decide (b.last_accessed_at ≤ a.last_accessed_at))

/-- The dict returned per memory by `get_relevant_memories`
(services.py lines 229-237). -/
structure MemoryDict where
  category : Text
  key : Text
  value : Text
  importance : Int
  deriving DecidableEq

def memToDict (m : Memory) : MemoryDict := ⟨m.category, m.key, m.value, m.importance⟩

/-- The rows selected by `get_relevant_memories`: the user's memories
ordered by importance then recency, first `limit` taken. -/
def selected_memories (rows : List Memory) (user_id : Nat) (limit : Nat) : List Memory :=
  (sortLe memDescLe (rows.filter (fun m => m.user_id == user_id))).take limit

/-- `MemoryService.get_relevant_memories` (services.py lines 206-237):
returns the top `limit` (default 10) memories as dicts, and as a
committed side effect bumps `last_accessed_at` of every returned row to
now.  The in-place mutation of the selected rows is modelled by mapping
over the table keyed on the primary key id. -/
def get_relevant_memories (st : AppState) (user_id : Nat) (limit : Nat := 10) :
    AppState × List MemoryDict :=
  let memories := selected_memories st.memories user_id limit
  let touched := memories.map (fun m => m.id)
  ({ st with
      memories := st.memories.map (fun m =>
        if touched.contains m.id then { m with last_accessed_at := st.now } else m),
      now := st.now + 1 },
   memories.map memToDict)

/-- One parsed item of the extraction reply (`extract_memories` output);
the `.get(...)` defaults of `extract_and_store_memories` appear as
`Option.getD`. -/
structure ExtractedMem where
  category : Option Text
  key : Option Text
  value : Option Text
  importance : Option Int
  deriving DecidableEq

/-- `MemoryService.extract_and_store_memories` (services.py lines
239-260).  The LLM call behind `extract_memories` is external to this
state model; its parsed result is the `extracted` parameter — always a
plain list, because `extract_memories` returns `[]` on any parse or
provider failure instead of raising.  Each item is upserted with the
source's dict-lookup defaults. -/
def extract_and_store_memories (st : AppState) (user_id : Nat)
    (extracted : List ExtractedMem) : AppState :=
  extracted.foldl (fun st mem =>
    (create_memory st user_id (mem.category.getD "general".toList)
      (mem.key.getD "info".toList) (mem.value.getD []) (mem.importance.getD 1)).1) st

theorem meminv_create_memory (st : AppState) (user_id : Nat) (category key value : Text)
    (importance : Int) (h : MemInv st.memories) :
    MemInv (create_memory st user_id category key value importance).1.memories := by
  unfold create_memory
  cases hf : st.memories.find? (fun m => memMatches m user_id category key) with
  | some ex =>
    dsimp only
    exact pairwise_updateFirst _ _ st.memories (fun x y hxy => hxy) (fun x y hxy => hxy) h
  | none =>
    dsimp only
    rw [MemInv, List.pairwise_append]
    refine ⟨h, List.pairwise_singleton _ _, ?_⟩
    intro a ha b hb
    rw [List.mem_singleton] at hb
    subst hb
    intro hcontra
    have hnp := List.find?_eq_none.mp hf a ha
    exact hnp ((memMatches_iff_triple a user_id category key).mpr hcontra)

theorem meminv_extract_and_store (user_id : Nat) (extracted : List ExtractedMem) :
    ∀ (st : AppState), MemInv st.memories →
      MemInv (extract_and_store_memories st user_id extracted).memories := by
  induction extracted with
  | nil => intro st h; simpa [extract_and_store_memories] using h
  | cons e es ih =>
    intro st h
    rw [extract_and_store_memories, List.foldl_cons]
    exact ih _ (meminv_create_memory st user_id _ _ _ _ h)

/-- C3: every memory-store write preserves the at-most-one-Fact-per-
`(userId, category, key)` invariant — both a direct `create_memory`
upsert and the sequence of upserts performed by the memory-extraction
path `extract_and_store_memories`. -/
theorem c3_memory_invariant :
    (∀ (st : AppState) (user_id : Nat) (category key value : Text) (importance : Int),
      MemInv st.memories →
      MemInv (create_memory st user_id category key value importance).1.memories) ∧
    (∀ (st : AppState) (user_id : Nat) (extracted : List ExtractedMem),
      MemInv st.memories →
      MemInv (extract_and_store_memories st user_id extracted).memories) :=
  ⟨meminv_create_memory,
   fun st user_id extracted h => meminv_extract_and_store user_id extracted st h⟩

/-- A one-row memory store for concrete instances. -/
def memA : Memory :=
  ⟨0, 1, "health_goal".toList, "primary_goal".toList, "lose weight".toList, 3, 0, 0⟩

def stMem : AppState := ⟨[], [memA], [], [], 0, 1, 5⟩

/-- C3 witness: the invariant-preservation theorem applied at a concrete
store satisfying the invariant. -/
theorem c3_memory_invariant_witness :
    MemInv (create_memory stMem 1 "health_goal".toList "primary_goal".toList
        "lose 5kg".toList 4).1.memories ∧
    MemInv (extract_and_store_memories stMem 1
        [⟨some "preference".toList, some "diet".toList, some "veg".toList, some 2⟩]).memories :=
  ⟨c3_memory_invariant.1 stMem 1 "health_goal".toList "primary_goal".toList
      "lose 5kg".toList 4 (by decide),
   c3_memory_invariant.2 stMem 1
      [⟨some "preference".toList, some "diet".toList, some "veg".toList, some 2⟩] (by decide)⟩

/-- C10: `create_memory` creates or modifies only rows matching the
upserted `(userId, category, key)`: the sublist of rows with any other
triple — this user's or any other's — is unchanged, every field
included. -/
theorem c10_create_memory_frame (st : AppState) (user_id : Nat)
    (category key value : Text) (importance : Int) :
    (create_memory st user_id category key value importance).1.memories.filter
        (fun m => !memMatches m user_id category key)
      = st.memories.filter (fun m => !memMatches m user_id category key) := by
  unfold create_memory
  cases hf : st.memories.find? (fun m => memMatches m user_id category key) with
  | some ex =>
    dsimp only
    exact filter_not_updateFirst _ _ st.memories (fun x hx => hx)
  | none =>
    dsimp only
    rw [List.filter_append]
    have hnew : (!memMatches (⟨st.next_memory_id, user_id, category, key, value,
        importance, st.now, st.now⟩ : Memory) user_id category key) = false := by
      simp [memMatches]
    simp [List.filter_cons, hnew]

theorem length_filter_le_one_of_meminv (rows : List Memory) (h : MemInv rows)
    (u : Nat) (c k : Text) :
    (rows.filter (fun m => memMatches m u c k)).length ≤ 1 := by
  rcases hfil : rows.filter (fun m => memMatches m u c k) with _ | ⟨a, _ | ⟨b, t⟩⟩
  · simp
  · simp
  · exfalso
    have hpw : (rows.filter (fun m => memMatches m u c k)).Pairwise
        (fun a b => tripleOf a ≠ tripleOf b) := h.filter _
    rw [hfil, List.pairwise_cons] at hpw
    have hab := hpw.1 b (List.mem_cons_self b t)
    have ha : a ∈ rows.filter (fun m => memMatches m u c k) :=
      hfil ▸ List.mem_cons_self a (b :: t)
    have hb : b ∈ rows.filter (fun m => memMatches m u c k) :=
      hfil ▸ List.mem_cons_of_mem a (List.mem_cons_self b t)
    have ha2 := (List.mem_filter.mp ha).2
    have hb2 := (List.mem_filter.mp hb).2
    rw [memMatches_iff_triple] at ha2 hb2
    exact hab (ha2.trans hb2.symm)

theorem upsert_twice (st : AppState) (user_id : Nat) (category key value : Text)
    (importance : Int) (h : MemInv st.memories) :
    ((create_memory (create_memory st user_id category key value importance).1
        user_id category key value importance).1.memories.filter
        (fun m => memMatches m user_id category key)).length = 1 ∧
    (create_memory (create_memory st user_id category key value importance).1
        user_id category key value importance).2.id
      = (create_memory st user_id category key value importance).2.id ∧
    (create_memory (create_memory st user_id category key value importance).1
        user_id category key value importance).2.value = value ∧
    (create_memory (create_memory st user_id category key value importance).1
        user_id category key value importance).2.importance = importance := by
  cases hf : st.memories.find? (fun m => memMatches m user_id category key) with
  | none =>
    have hpnew : memMatches (⟨st.next_memory_id, user_id, category, key, value,
        importance, st.now, st.now⟩ : Memory) user_id category key = true := by
      simp [memMatches]
    have hf2 : ((st.memories ++ [(⟨st.next_memory_id, user_id, category, key, value,
        importance, st.now, st.now⟩ : Memory)]).find?
          (fun m => memMatches m user_id category key))
        = some (⟨st.next_memory_id, user_id, category, key, value,
            importance, st.now, st.now⟩ : Memory) := by
      rw [find?_append_of_none _ st.memories _ hf, List.find?_cons, hpnew]
    have hall : ∀ x ∈ st.memories, memMatches x user_id category key = false :=
      fun x hx => Bool.not_eq_true _ ▸ (by
        have := List.find?_eq_none.mp hf x hx
        simpa using this)
    unfold create_memory
    rw [hf]
    dsimp only
    rw [hf2]
    dsimp only
    refine ⟨?_, rfl, rfl, rfl⟩
    rw [updateFirst_append_left _ _ st.memories _ hall, List.filter_append]
    rw [List.filter_eq_nil_iff.mpr (fun x hx => by simp [hall x hx])]
    rw [updateFirst, if_pos hpnew]
    simp [List.filter_cons, memMatches]
  | some ex =>
    have hpex := List.find?_some hf
    have hf2 := find?_updateFirst (fun m => memMatches m user_id category key)
      (fun m => { m with
          value := value, importance := importance, last_accessed_at := st.now })
      st.memories ex hf hpex
    unfold create_memory
    rw [hf]
    dsimp only
    rw [hf2]
    dsimp only
    refine ⟨?_, rfl, rfl, rfl⟩
    have hinv1 : MemInv (updateFirst (fun m => memMatches m user_id category key)
        (fun m => { m with
            value := value, importance := importance, last_accessed_at := st.now })
        st.memories) :=
      pairwise_updateFirst _ _ st.memories (fun x y hxy => hxy) (fun x y hxy => hxy) h
    have hle := length_filter_le_one_of_meminv
      (updateFirst (fun m => memMatches m user_id category key)
        (fun m => { m with
            value := value, importance := importance,
            last_accessed_at := st.now + 1 })
        (updateFirst (fun m => memMatches m user_id category key)
          (fun m => { m with
              value := value, importance := importance, last_accessed_at := st.now })
          st.memories))
      (pairwise_updateFirst _ _ _ (fun x y hxy => hxy) (fun x y hxy => hxy) hinv1)
      user_id category key
    have hmem := mem_updateFirst_self (fun m => memMatches m user_id category key)
      (fun m => { m with
          value := value, importance := importance,
          last_accessed_at := st.now + 1 }) _ _ hf2
    have hmemf : (fun m => { m with
        value := value, importance := importance,
        last_accessed_at := st.now + 1 }) ({ ex with
          value := value, importance := importance, last_accessed_at := st.now })
        ∈ (updateFirst (fun m => memMatches m user_id category key)
            (fun m => { m with
                value := value, importance := importance,
                last_accessed_at := st.now + 1 })
            (updateFirst (fun m => memMatches m user_id category key)
              (fun m => { m with
                  value := value, importance := importance, last_accessed_at := st.now })
              st.memories)).filter (fun m => memMatches m user_id category key) :=
      List.mem_filter.mpr ⟨hmem, hpex⟩
    have hpos : 0 < ((updateFirst (fun m => memMatches m user_id category key)
        (fun m => { m with
            value := value, importance := importance,
            last_accessed_at := st.now + 1 })
        (updateFirst (fun m => memMatches m user_id category key)
          (fun m => { m with
              value := value, importance := importance, last_accessed_at := st.now })
          st.memories)).filter (fun m => memMatches m user_id category key)).length :=
      List.length_pos.mpr (List.ne_nil_of_mem hmemf)
    omega

def stEmpty : AppState := ⟨[], [], [], [], 0, 0, 0⟩

/-- C7: the upsert is idempotent — starting from any store satisfying the
Fact invariant, two identical `create_memory` calls leave exactly one Fact
for the triple, returned with the identity of the first call's Fact and
the written value and importance; and Scenario D concretely: upserting
`(u, health_goal, primary_goal, "lose weight", 3)` then
`(u, health_goal, primary_goal, "lose 5kg", 4)` leaves exactly one Fact,
bearing the identity created by the first call, with value `"lose 5kg"`
and importance 4. -/
theorem c7_upsert_idempotent :
    (∀ (st : AppState) (user_id : Nat) (category key value : Text) (importance : Int),
      MemInv st.memories →
      ((create_memory (create_memory st user_id category key value importance).1
          user_id category key value importance).1.memories.filter
          (fun m => memMatches m user_id category key)).length = 1 ∧
      (create_memory (create_memory st user_id category key value importance).1
          user_id category key value importance).2.id
        = (create_memory st user_id category key value importance).2.id ∧
      (create_memory (create_memory st user_id category key value importance).1
          user_id category key value importance).2.value = value ∧
      (create_memory (create_memory st user_id category key value importance).1
          user_id category key value importance).2.importance = importance) ∧
    ((create_memory (create_memory stEmpty 7 "health_goal".toList "primary_goal".toList
        "lose weight".toList 3).1 7 "health_goal".toList "primary_goal".toList
        "lose 5kg".toList 4).1.memories
      = [⟨0, 7, "health_goal".toList, "primary_goal".toList, "lose 5kg".toList, 4, 1, 0⟩] ∧
     (create_memory (create_memory stEmpty 7 "health_goal".toList "primary_goal".toList
        "lose weight".toList 3).1 7 "health_goal".toList "primary_goal".toList
        "lose 5kg".toList 4).2.id
      = (create_memory stEmpty 7 "health_goal".toList "primary_goal".toList
          "lose weight".toList 3).2.id) :=
  ⟨upsert_twice, by constructor <;> decide⟩

/-- C7 witness: the idempotence half applied at a concrete store
satisfying the invariant. -/
theorem c7_upsert_idempotent_witness :
    ((create_memory (create_memory stMem 1 "health_goal".toList "primary_goal".toList
        "walk daily".toList 2).1 1 "health_goal".toList "primary_goal".toList
        "walk daily".toList 2).1.memories.filter
        (fun m => memMatches m 1 "health_goal".toList "primary_goal".toList)).length = 1 ∧
    (create_memory (create_memory stMem 1 "health_goal".toList "primary_goal".toList
        "walk daily".toList 2).1 1 "health_goal".toList "primary_goal".toList
        "walk daily".toList 2).2.id
      = (create_memory stMem 1 "health_goal".toList "primary_goal".toList
          "walk daily".toList 2).2.id ∧
    (create_memory (create_memory stMem 1 "health_goal".toList "primary_goal".toList
        "walk daily".toList 2).1 1 "health_goal".toList "primary_goal".toList
        "walk daily".toList 2).2.value = "walk daily".toList ∧
    (create_memory (create_memory stMem 1 "health_goal".toList "primary_goal".toList
        "walk daily".toList 2).1 1 "health_goal".toList "primary_goal".toList
        "walk daily".toList 2).2.importance = 2 :=
  c7_upsert_idempotent.1 stMem 1 "health_goal".toList "primary_goal".toList
    "walk daily".toList 2 (by decide)

theorem memDescLe_total (a b : Memory) :
    memDescLe a b = true ∨ memDescLe b a = true := by
  simp only [memDescLe, Bool.or_eq_true, Bool.and_eq_true, decide_eq_true_eq, beq_iff_eq]
  omega

theorem memDescLe_trans (a b c : Memory)
    (h1 : memDescLe a b = true) (h2 : memDescLe b c = true) :
    memDescLe a c = true := by
  simp only [memDescLe, Bool.or_eq_true, Bool.and_eq_true, decide_eq_true_eq,
    beq_iff_eq] at h1 h2 ⊢
  omega

/-- C6: `get_relevant_memories` returns at most `limit` memories, as the
dicts of the selection ordered by importance descending then
`last_accessed_at` descending, and as a side effect every selected row
reappears in the store with its `last_accessed_at` set to the current
time. -/
theorem c6_top_facts (st : AppState) (user_id limit : Nat) :
    (get_relevant_memories st user_id limit).2
      = (selected_memories st.memories user_id limit).map memToDict ∧
    (get_relevant_memories st user_id limit).2.length ≤ limit ∧
    (selected_memories st.memories user_id limit).Pairwise (fun a b =>
      b.importance < a.importance ∨
        (a.importance = b.importance ∧ b.last_accessed_at ≤ a.last_accessed_at)) ∧
    ∀ m ∈ selected_memories st.memories user_id limit,
      { m with last_accessed_at := st.now } ∈ (get_relevant_memories st user_id limit).1.memories := by
  refine ⟨rfl, ?_, ?_, ?_⟩
  · rw [get_relevant_memories]
    dsimp only
    rw [List.length_map, selected_memories]
    exact List.length_take_le limit _
  · have hs := pairwise_sortLe memDescLe memDescLe_total memDescLe_trans
      (st.memories.filter (fun m => m.user_id == user_id))
    have ht : (selected_memories st.memories user_id limit).Pairwise
        (fun a b => memDescLe a b = true) :=
      hs.sublist (List.take_sublist _ _)
    exact ht.imp (fun hab => by
      simpa only [memDescLe, Bool.or_eq_true, Bool.and_eq_true, decide_eq_true_eq,
        beq_iff_eq] using hab)
  · intro m hm
    have hrows : m ∈ st.memories := by
      have h1 : m ∈ sortLe memDescLe (st.memories.filter (fun x => x.user_id == user_id)) :=
        List.mem_of_mem_take hm
      have h2 := (mem_sortLe memDescLe m _).mp h1
      exact (List.mem_filter.mp h2).1
    have hid : m.id ∈ (selected_memories st.memories user_id limit).map (fun x => x.id) :=
      List.mem_map_of_mem _ hm
    have hcont : ((selected_memories st.memories user_id limit).map
        (fun x => x.id)).contains m.id = true := List.elem_eq_true_of_mem hid
    rw [get_relevant_memories]
    dsimp only
    refine List.mem_map.mpr ⟨m, hrows, ?_⟩
    rw [hcont]
    simp

/-- C6 witness: the top-facts theorem applied at a concrete store. -/
theorem c6_top_facts_witness :
    (get_relevant_memories stMem 1 3).2
      = (selected_memories stMem.memories 1 3).map memToDict ∧
    (get_relevant_memories stMem 1 3).2.length ≤ 3 ∧
    (selected_memories stMem.memories 1 3).Pairwise (fun a b =>
      b.importance < a.importance ∨
        (a.importance = b.importance ∧ b.last_accessed_at ≤ a.last_accessed_at)) ∧
    ∀ m ∈ selected_memories stMem.memories 1 3,
      { m with last_accessed_at := stMem.now } ∈ (get_relevant_memories stMem 1 3).1.memories :=
  c6_top_facts stMem 1 3

/-- `ORDER BY created_at DESC` over message rows. -/
def createdDescLe (a b : MessageRow) : Bool := decide (b.created_at ≤ a.created_at)

/-- The query underlying `MessageService.get_messages` before ordering:
the user's messages, restricted to `id < before_id` only when `before_id`
is truthy — Python `if before_id:` skips the filter both for `None` and
for `0`. -/
def cursor_query (rows : List MessageRow) (user_id : Nat) (before_id : Option Int) :
    List MessageRow :=
  match before_id with
  | some b =>
    if b == 0 then rows.filter (fun m => m.user_id == user_id)
    else (rows.filter (fun m => m.user_id == user_id)).filter
      (fun m => decide ((m.id : Int) < b))
  | none => rows.filter (fun m => m.user_id == user_id)

/-- The `limit + 1` newest-first rows fetched by `get_messages` to detect
whether more remain. -/
def fetched_messages (rows : List MessageRow) (user_id : Nat) (limit : Nat)
    (before_id : Option Int) : List MessageRow :=
  (sortLe createdDescLe (cursor_query rows user_id before_id)).take (limit + 1)

/-- The response record of `get_messages` (schemas.py
`MessageListResponse`). -/
structure MessageListResponse where
  messages : List MessageRow
  total : Nat
  has_more : Bool
  next_cursor : Option Nat
  deriving DecidableEq

/-- `MessageService.get_messages` (services.py lines 99-133): cursor
pagination, newest first by `created_at`; fetches `limit + 1` rows, trims
to `limit` when more remain, counts all of the user's messages for
`total`, and reports the oldest returned id as `next_cursor` only when
more remain. -/
def get_messages (rows : List MessageRow) (user_id : Nat) (limit : Nat)
    (before_id : Option Int) : MessageListResponse :=
  let fetched := fetched_messages rows user_id limit before_id
  let has_more := decide (fetched.length > limit)
  let messages := if has_more then fetched.take limit else fetched
  ⟨messages, (rows.filter (fun m => m.user_id == user_id)).length, has_more,
    if !messages.isEmpty && has_more then messages.getLast?.map (fun m => m.id) else none⟩

/-- FastAPI error result (main.py `HTTPException`). -/
structure HTTPException where
  status_code : Nat
  detail : Text
  deriving DecidableEq

/-- The `GET /api/messages` route (main.py lines 174-205): rejects a limit
outside `[1, 100]` with a 400 error and otherwise delegates to the
service. -/
def api_get_messages (rows : List MessageRow) (user_id : Nat) (limit : Int)
    (before_id : Option Int) : Except HTTPException MessageListResponse :=
  if limit < 1 || limit > 100 then
    .error ⟨400, "Limit must be between 1 and 100".toList⟩
  else
    .ok (get_messages rows user_id limit.toNat before_id)

theorem mem_of_getLast?_eq_some {α : Type} (l : List α) (m : α)
    (h : l.getLast? = some m) : m ∈ l := by
  have hsplit := List.dropLast_append_getLast? m (Option.mem_def.mpr h)
  rw [← hsplit]
  exact List.mem_append_right _ (List.mem_singleton_self m)

theorem pairwise_rel_getLast {α : Type} {R : α → α → Prop} (l : List α) (m : α)
    (hpw : l.Pairwise R) (hl : l.getLast? = some m) :
    ∀ x ∈ l, x = m ∨ R x m := by
  induction l with
  | nil => simp at hl
  | cons a t ih =>
    rw [List.pairwise_cons] at hpw
    cases t with
    | nil =>
      intro x hx
      rw [List.mem_singleton] at hx
      left
      rw [List.getLast?_singleton] at hl
      rw [hx]
      exact Option.some.inj hl
    | cons b t2 =>
      have hl2 : (b :: t2).getLast? = some m := by
        rw [List.getLast?_cons_cons] at hl
        exact hl
      intro x hx
      rcases List.mem_cons.mp hx with hx | hx
      · right
        rw [hx]
        exact hpw.1 m (mem_of_getLast?_eq_some _ m hl2)
      · exact ih hpw.2 hl2 x hx

theorem cursor_query_sublist (rows : List MessageRow) (user_id : Nat)
    (before_id : Option Int) :
    List.Sublist (cursor_query rows user_id before_id)
      (rows.filter (fun m => m.user_id == user_id)) := by
  cases before_id with
  | none => exact List.Sublist.refl _
  | some b =>
    rw [cursor_query]
    split
    · exact List.Sublist.refl _
    · exact List.filter_sublist _

theorem get_messages_has_more (rows : List MessageRow) (user_id limit : Nat)
    (before_id : Option Int) :
    (get_messages rows user_id limit before_id).has_more
      = decide ((fetched_messages rows user_id limit before_id).length > limit) := rfl

theorem get_messages_messages (rows : List MessageRow) (user_id limit : Nat)
    (before_id : Option Int) :
    (get_messages rows user_id limit before_id).messages
      = if decide ((fetched_messages rows user_id limit before_id).length > limit)
        then (fetched_messages rows user_id limit before_id).take limit
        else fetched_messages rows user_id limit before_id := rfl

theorem get_messages_next_cursor (rows : List MessageRow) (user_id limit : Nat)
    (before_id : Option Int) :
    (get_messages rows user_id limit before_id).next_cursor
      = if !(get_messages rows user_id limit before_id).messages.isEmpty
           && (get_messages rows user_id limit before_id).has_more
        then (get_messages rows user_id limit before_id).messages.getLast?.map
          (fun m => m.id)
        else none := rfl

/-- C9 (amended): over a message history whose ids and creation times
strictly increase together (as the app's sequential timestamped writes
produce), the endpoint rejects exactly the limits outside `[1, 100]`, and
for an accepted limit returns turns ordered by id descending, restricted
to `id < beforeId` whenever `beforeId` is supplied and non-zero (Python
truthiness treats `beforeId = 0` as absent, see `c9_counterexample`),
with at most `limit` items; `hasMore` holds exactly when older messages
remain beyond the returned batch, and `nextCursor` equals the id of the
oldest returned message exactly when more remain and is absent
otherwise. -/
theorem c9_pagination (rows : List MessageRow) (user_id : Nat) (limit : Int)
    (before_id : Option Int)
    (hmono : (rows.filter (fun m => m.user_id == user_id)).Pairwise
      (fun a b => a.id < b.id ∧ a.created_at < b.created_at))
    (hlim : 1 ≤ limit ∧ limit ≤ 100)
    (hb : before_id = none ∨ ∃ b, before_id = some b ∧ b ≠ 0) :
    api_get_messages rows user_id limit before_id
      = .ok (get_messages rows user_id limit.toNat before_id) ∧
    (get_messages rows user_id limit.toNat before_id).messages.Pairwise
      (fun a b => b.id < a.id) ∧
    (∀ b, before_id = some b →
      ∀ m ∈ (get_messages rows user_id limit.toNat before_id).messages,
        (m.id : Int) < b) ∧
    (get_messages rows user_id limit.toNat before_id).messages.length ≤ limit.toNat ∧
    ((get_messages rows user_id limit.toNat before_id).has_more = true ↔
      (get_messages rows user_id limit.toNat before_id).messages.length
        < (cursor_query rows user_id before_id).length) ∧
    ((get_messages rows user_id limit.toNat before_id).has_more = true →
      ∃ m, (get_messages rows user_id limit.toNat before_id).messages.getLast? = some m ∧
        (get_messages rows user_id limit.toNat before_id).next_cursor = some m.id ∧
        ∀ x ∈ (get_messages rows user_id limit.toNat before_id).messages, m.id ≤ x.id) ∧
    ((get_messages rows user_id limit.toNat before_id).has_more = false →
      (get_messages rows user_id limit.toNat before_id).next_cursor = none) := by
  have hq : (cursor_query rows user_id before_id).Pairwise
      (fun a b => a.id < b.id ∧ a.created_at < b.created_at) :=
    hmono.sublist (cursor_query_sublist rows user_id before_id)
  have hrev : sortLe createdDescLe (cursor_query rows user_id before_id)
      = (cursor_query rows user_id before_id).reverse :=
    sortLe_eq_reverse _ _ (hq.imp (fun hab => by
      simp only [createdDescLe, decide_eq_false_iff_not, not_le]
      exact hab.2))
  set n := limit.toNat with hn
  set q := cursor_query rows user_id before_id with hqdef
  have hfet : fetched_messages rows user_id n before_id = q.reverse.take (n + 1) := by
    rw [fetched_messages, hrev]
  have hlenf : (fetched_messages rows user_id n before_id).length = min (n + 1) q.length := by
    rw [hfet, List.length_take, List.length_reverse]
  have hqrevpw : q.reverse.Pairwise (fun a b => b.id < a.id) := by
    rw [List.pairwise_reverse]
    exact hq.imp (fun hab => hab.1)
  have hsub : List.Sublist (get_messages rows user_id n before_id).messages q.reverse := by
    rw [get_messages_messages, hfet]
    split
    · exact (List.take_sublist _ _).trans (List.take_sublist _ _)
    · exact List.take_sublist _ _
  have hpw : (get_messages rows user_id n before_id).messages.Pairwise
      (fun a b => b.id < a.id) := hqrevpw.sublist hsub
  have hapi : api_get_messages rows user_id limit before_id
      = .ok (get_messages rows user_id n before_id) := by
    rw [api_get_messages,
      if_neg (by simp only [Bool.or_eq_true, decide_eq_true_eq, not_or, not_lt]; omega)]
  have hcq : ∀ b, before_id = some b → ∀ m ∈ q, (m.id : Int) < b := by
    intro b hsome m hm
    rcases hb with hbn | ⟨b2, hb2, hbne⟩
    · rw [hbn] at hsome
      cases hsome
    · rw [hb2] at hsome
      injection hsome with hbb
      subst hbb
      rw [hqdef, hb2, cursor_query] at hm
      rw [if_neg (by simpa using hbne)] at hm
      have := (List.mem_filter.mp hm).2
      simpa using this
  have hrestrict : ∀ b, before_id = some b →
      ∀ m ∈ (get_messages rows user_id n before_id).messages, (m.id : Int) < b := by
    intro b hsome m hm
    exact hcq b hsome m (List.mem_reverse.mp (hsub.subset hm))
  have hnpos : 1 ≤ n := by omega
  rcases Nat.lt_or_ge n q.length with hA | hB
  · -- more rows remain than fit: has_more
    have hlen : (fetched_messages rows user_id n before_id).length = n + 1 := by
      rw [hlenf]; omega
    have hdec : decide ((fetched_messages rows user_id n before_id).length > n) = true := by
      simp only [decide_eq_true_eq]
      omega
    have hmsgs : (get_messages rows user_id n before_id).messages
        = (fetched_messages rows user_id n before_id).take n := by
      rw [get_messages_messages, if_pos hdec]
    have hlenm : (get_messages rows user_id n before_id).messages.length = n := by
      rw [hmsgs, List.length_take, hlen]
      omega
    have hhm : (get_messages rows user_id n before_id).has_more = true := by
      rw [get_messages_has_more, hdec]
    have hne : (get_messages rows user_id n before_id).messages ≠ [] := by
      intro hcon
      rw [hcon] at hlenm
      simp at hlenm
      omega
    have hgl : (get_messages rows user_id n before_id).messages.getLast?
        = some ((get_messages rows user_id n before_id).messages.getLast hne) :=
      List.getLast?_eq_getLast_of_ne_nil hne
    refine ⟨hapi, hpw, hrestrict, by omega, ?_, ?_, ?_⟩
    · rw [hhm, hlenm]
      simp only [true_iff]
      omega
    · intro _
      refine ⟨(get_messages rows user_id n before_id).messages.getLast hne, hgl, ?_, ?_⟩
      · rw [get_messages_next_cursor, hhm,
          if_pos (by simp [List.isEmpty_iff, hne]), hgl]
        rfl
      · intro x hx
        rcases pairwise_rel_getLast _ _ hpw hgl x hx with hx2 | hx2
        · rw [hx2]
        · omega
    · intro hcon
      rw [hhm] at hcon
      cases hcon
  · -- everything fits: no more rows remain
    have hlen : (fetched_messages rows user_id n before_id).length = q.length := by
      rw [hlenf]; omega
    have hdec : decide ((fetched_messages rows user_id n before_id).length > n) = false := by
      simp only [decide_eq_false_iff_not, not_lt]
      omega
    have hmsgs : (get_messages rows user_id n before_id).messages
        = fetched_messages rows user_id n before_id := by
      rw [get_messages_messages, hdec]
      simp
    have hlenm : (get_messages rows user_id n before_id).messages.length = q.length := by
      rw [hmsgs, hlen]
    have hhm : (get_messages rows user_id n before_id).has_more = false := by
      rw [get_messages_has_more, hdec]
    refine ⟨hapi, hpw, hrestrict, by omega, ?_, ?_, ?_⟩
    · rw [hhm, hlenm]
      constructor
      · intro hcon
        cases hcon
      · intro hcon
        omega
    · intro hcon
      rw [hhm] at hcon
      cases hcon
    · intro _
      rw [get_messages_next_cursor, hhm]
      simp

/-- C9 counterexample: (i) a supplied cursor `beforeId = 0` is falsy in
Python, so the filter `id < 0` is skipped and a message with id 1 is
returned even though the claim requires `id < beforeId`; (ii) the query
orders by `created_at` descending, not id, so when creation times do not
increase with id the returned batch is not id-descending. -/
theorem c9_counterexample :
    ((api_get_messages [⟨1, 1, "user".toList, "hi".toList, 10, 0, none⟩]
        1 50 (some 0)).toOption.map (fun r => r.messages.map (fun m => m.id)))
      = some [1] ∧
    ¬ ((1 : Int) < 0) ∧
    ((api_get_messages [⟨1, 1, "user".toList, "a".toList, 20, 0, none⟩,
        ⟨2, 1, "user".toList, "b".toList, 10, 0, none⟩]
        1 50 none).toOption.map (fun r => r.messages.map (fun m => m.id)))
      = some [1, 2] ∧
    ¬ (([1, 2] : List Nat).Pairwise (fun a b => b < a)) := by
  refine ⟨by decide, by decide, by decide, by decide⟩

def pagRows : List MessageRow :=
  [⟨1, 1, "user".toList, "a".toList, 10, 0, none⟩,
   ⟨2, 1, "assistant".toList, "b".toList, 20, 0, none⟩,
   ⟨3, 1, "user".toList, "c".toList, 30, 0, none⟩]

/-- C9 witness: the amended pagination theorem applied at a concrete
monotone history with limit 2 and no cursor. -/
theorem c9_pagination_witness :
    api_get_messages pagRows 1 2 none
      = .ok (get_messages pagRows 1 (2 : Int).toNat none) ∧
    (get_messages pagRows 1 (2 : Int).toNat none).messages.Pairwise
      (fun a b => b.id < a.id) ∧
    (∀ b, (none : Option Int) = some b →
      ∀ m ∈ (get_messages pagRows 1 (2 : Int).toNat none).messages,
        (m.id : Int) < b) ∧
    (get_messages pagRows 1 (2 : Int).toNat none).messages.length ≤ (2 : Int).toNat ∧
    ((get_messages pagRows 1 (2 : Int).toNat none).has_more = true ↔
      (get_messages pagRows 1 (2 : Int).toNat none).messages.length
        < (cursor_query pagRows 1 none).length) ∧
    ((get_messages pagRows 1 (2 : Int).toNat none).has_more = true →
      ∃ m, (get_messages pagRows 1 (2 : Int).toNat none).messages.getLast? = some m ∧
        (get_messages pagRows 1 (2 : Int).toNat none).next_cursor = some m.id ∧
        ∀ x ∈ (get_messages pagRows 1 (2 : Int).toNat none).messages, m.id ≤ x.id) ∧
    ((get_messages pagRows 1 (2 : Int).toNat none).has_more = false →
      (get_messages pagRows 1 (2 : Int).toNat none).next_cursor = none) :=
  c9_pagination pagRows 1 2 none (by decide) (by decide) (Or.inl rfl)

/-- Python truthiness of an optional string: absent or empty is falsy. -/
def optTextTruthy : Option Text → Bool
  | none => false
  | some t => !t.isEmpty

/-- Python truthiness of an optional integer: absent or zero is falsy. -/
def optIntTruthy : Option Int → Bool
  | none => false
  | some n => !(n == 0)

/-- `UserService.get_user_profile` (services.py lines 55-67). -/
def get_user_profile (user : UserRow) : UserProfile :=
  ⟨user.full_name, user.age, user.gender, user.weight, user.height,
   user.medical_conditions, user.medications, user.allergies⟩

/-- The fixed persona-and-intake script returned by `create_system_prompt`
in onboarding mode (llm_service.py lines 115-133). -/
def onboardingScript : Text :=
  ("You are Disha, India\x27s first AI health coach. You\x27re having your first conversation with a new user.\n\nYour goal is to:\n1. Welcome them warmly and introduce yourself naturally (don\x27t sound robotic)\n2. Understand their health goals and current situation\n3. Gather basic information: age, any medical conditions, current medications, allergies\n4. Ask about their lifestyle: sleep, exercise, diet, stress levels\n5. Be empathetic and conversational - you\x27re building a relationship, not conducting an interrogation\n\nImportant:\n- Ask ONE question at a time, keep it conversational\n- Show genuine interest in their responses\n- Be supportive and non-judgmental\n- Remember everything they tell you for future conversations\n- Sound like a caring friend, not a clinical chatbot\n- Use simple language, avoid medical jargon unless necessary\n\nKeep your responses concise and natural. Think WhatsApp chat, not medical consultation.").toList

/-- `LLMService.create_system_prompt` (llm_service.py lines 106-183):
either the fixed onboarding script, or the persona preamble followed by
the profile block (only truthy fields), up to 5 memories, up to 3
protocols, and the guidelines footer, joined by newlines.  The profile
dict always carries its eight keys, so the source's `if user_profile:`
is always taken. -/
def create_system_prompt (user_profile : UserProfile) (memories : List MemoryDict)
    (protocols : List ProtocolSummary) (is_onboarding : Bool) : Text :=
  if is_onboarding then onboardingScript
  else
    let prompt_parts : List Text :=
      [("You are Disha, India\x27s first AI health coach. You communicate like a caring friend on WhatsApp.").toList,
       ("\nYour personality:").toList,
       ("- Warm, empathetic, and supportive").toList,
       ("- Use simple language, avoid medical jargon").toList,
       ("- Keep responses concise (2-3 sentences usually)").toList,
       ("- Be conversational, not robotic or clinical").toList,
       ("- Show you remember past conversations").toList,
       ("- Ask follow-up questions when appropriate").toList]
    let prompt_parts := prompt_parts ++ [("\n\nUser Profile:").toList]
    let prompt_parts := prompt_parts ++
      (if optTextTruthy user_profile.full_name then
        [("- Name: ").toList ++ user_profile.full_name.getD []] else [])
    let prompt_parts := prompt_parts ++
      (if optIntTruthy user_profile.age then
        [("- Age: ").toList ++ (toString (user_profile.age.getD 0)).toList] else [])
    let prompt_parts := prompt_parts ++
      (if optTextTruthy user_profile.gender then
        [("- Gender: ").toList ++ user_profile.gender.getD []] else [])
    let prompt_parts := prompt_parts ++
      (if !user_profile.medical_conditions.isEmpty then
        [("- Medical Conditions: ").toList
          ++ joinSep ((", ").toList) user_profile.medical_conditions] else [])
    let prompt_parts := prompt_parts ++
      (if !user_profile.medications.isEmpty then
        [("- Medications: ").toList
          ++ joinSep ((", ").toList) user_profile.medications] else [])
    let prompt_parts := prompt_parts ++
      (if !user_profile.allergies.isEmpty then
        [("- Allergies: ").toList
          ++ joinSep ((", ").toList) user_profile.allergies] else [])
    let prompt_parts := prompt_parts ++
      (if !memories.isEmpty then
        ("\n\nRelevant Context from Past Conversations:").toList ::
          (memories.take 5).map (fun memory =>
            ("- ").toList ++ memory.key ++ (": ").toList ++ memory.value)
       else [])
    let prompt_parts := prompt_parts ++
      (if !protocols.isEmpty then
        ("\n\nRelevant Medical Protocols:").toList ::
          ((protocols.take 3).map (fun protocol =>
            [("\n").toList ++ protocol.name ++ (":").toList,
             protocol.response_template])).flatten
       else [])
    let prompt_parts := prompt_parts ++
      [("\n\nImportant Guidelines:").toList,
       ("- For medical emergencies, always advise immediate medical attention").toList,
       ("- You\x27re a health coach, not a doctor - don\x27t diagnose or prescribe").toList,
       ("- Use the protocols above when relevant").toList,
       ("- Be encouraging about healthy habits").toList,
       ("- Keep responses short and WhatsApp-friendly").toList]
    joinSep (("\n").toList) prompt_parts

/-- `MessageService.create_message` (services.py lines 73-97): counts
tokens via the service tokenizer when the caller passed 0, then appends
the row.  A `None` metadata argument is stored as the empty dict in the
source; here it stays `none`. -/
def create_message (tc : Text → Nat) (st : AppState) (user_id : Nat)
    (role content : Text) (token_count : Nat)
    (message_metadata : Option MessageMeta) : AppState × MessageRow :=
  let token_count := if token_count == 0 then tc content else token_count
  let message : MessageRow := ⟨st.next_message_id, user_id, role, content,
    st.now, token_count, message_metadata⟩
  ({ st with
      messages := st.messages ++ [message],
      next_message_id := st.next_message_id + 1,
      now := st.now + 1 }, message)

/-- `MessageService.get_recent_messages` (services.py lines 135-156):
the newest `limit` rows, restored to chronological order, as role/content
dicts for the LLM. -/
def get_recent_messages (st : AppState) (user_id : Nat) (limit : Nat := 20) : List Msg :=
  (((sortLe createdDescLe (st.messages.filter (fun m => m.user_id == user_id))).take
      limit).reverse).map (fun m => ⟨m.role, m.content⟩)

/-- `TypingService.update_typing_status` (services.py lines 478-492):
single row per user, created on first use, last-writer-wins update. -/
def update_typing_status (st : AppState) (user_id : Nat) (is_typing : Bool) : AppState :=
  match st.typing.find? (fun t => t.user_id == user_id) with
  | none =>
    { st with
        typing := st.typing ++ [⟨user_id, is_typing, st.now⟩],
        now := st.now + 1 }
  | some _ =>
    { st with
        typing := updateFirst (fun t => t.user_id == user_id)
          (fun t => { t with is_typing := is_typing, updated_at := st.now }) st.typing,
        now := st.now + 1 }

/-- The dict returned by `TypingService.get_typing_status`
(services.py lines 494-506). -/
structure TypingStatus where
  is_typing : Bool
  updated_at : Option Nat
  deriving DecidableEq

def get_typing_status (st : AppState) (user_id : Nat) : TypingStatus :=
  match st.typing.find? (fun t => t.user_id == user_id) with
  | some indicator => ⟨indicator.is_typing, some indicator.updated_at⟩
  | none => ⟨false, none⟩

/-- Failure classes a turn can surface: a provider error raised by the
generation call (transport, auth, quota — external to the repository),
or the `ZeroDivisionError` of the degraded truncation path. -/
inductive AppError where
  | provider : Text → AppError
  | zeroDivision : AppError
  deriving DecidableEq

/-- The configuration `LLMService.__init__` fixes from settings
(llm_service.py lines 18-48): provider tag, model name and the token
limits. -/
structure LLMConfig where
  provider : Text
  model : Text
  max_context_tokens : Int
  max_response_tokens : Int
  deriving DecidableEq

/-- `LLMService.generate_response` (llm_service.py lines 185-242):
truncates the history against the instruction text, then performs the
provider interaction.  That interaction (the OpenAI/Anthropic SDK network
call, or the demo branch with its `random.choice`) is external to the
repository; its outcome is the `providerResult` oracle argument — `.ok`
carries the reply text and reported token usage, `.error` a provider
failure that the source re-raises.  On success the call metadata is
assembled as in the source (the last three fields are dict entries added
later by `process_message` and start at their defaults here). -/
def generate_response (cfg : LLMConfig) (tc : Text → Nat)
    (providerResult : Except AppError (Text × Nat)) (messages : List Msg)
    (system_prompt : Text) : Except AppError (Text × MessageMeta) :=
  match truncate_context tc messages system_prompt cfg.max_context_tokens
      cfg.max_response_tokens with
  | none => .error .zeroDivision
  | some truncated_messages =>
    match providerResult with
    | .error e => .error e
    | .ok (content, tokens_used) =>
      .ok (content,
        ⟨cfg.provider, cfg.model, truncated_messages.length, messages.length,
         tokens_used, [], 0, false⟩)

/-- `ChatService.process_message` (services.py lines 404-472).  Returns
the state reached when the turn ends — also on failure, since every step
before the generation call has already committed — together with either
the persisted `(user_message, assistant_message)` pair or the propagated
error. -/
def process_message (cfg : LLMConfig) (tc : Text → Nat)
    (providerResult : Except AppError (Text × Nat))
    (extractResult : List ExtractedMem) (st : AppState) (user : UserRow)
    (message_content : Text) :
    AppState × Except AppError (MessageRow × MessageRow) :=
  let r1 := create_message tc st user.id (("user").toList) message_content 0 none
  let user_message := r1.2
  let is_onboarding := !user.onboarding_completed
  let user_profile := get_user_profile user
  let r2 := get_relevant_memories r1.1 user.id
  let memories := r2.2
  let protocols := match_protocols r2.1.protocols message_content user_profile
  let system_prompt := create_system_prompt user_profile memories protocols is_onboarding
  let message_history := get_recent_messages r2.1 user.id 20
  match generate_response cfg tc providerResult message_history system_prompt with
  | .error e => (r2.1, .error e)
  | .ok (response_content, meta) =>
    let metadata := { meta with
        protocols_used := protocols.map (fun p => p.name),
        memories_used := memories.length,
        is_onboarding := is_onboarding }
    let r3 := create_message tc r2.1 user.id (("assistant").toList) response_content 0
      (some metadata)
    let assistant_message := r3.2
    let st4 := if message_history.length % 5 == 0 then
        extract_and_store_memories r3.1 user.id extractResult
      else r3.1
    (st4, .ok (user_message, assistant_message))

/-- The context-usage summary of the chat response (main.py lines
162-165). -/
structure ContextUsed where
  protocols : List Text
  memories_count : Nat
  deriving DecidableEq

/-- The `POST /api/chat` route `send_message` (main.py lines 135-171):
sets the typing indicator, processes the turn, and clears the indicator
on both the success and the failure exit, the latter re-raising the
failure to the caller (here the `Except.error`). -/
def send_message (cfg : LLMConfig) (tc : Text → Nat)
    (providerResult : Except AppError (Text × Nat))
    (extractResult : List ExtractedMem) (st : AppState) (user : UserRow)
    (message : Text) :
    AppState × Except AppError (MessageRow × MessageRow × ContextUsed) :=
  let st0 := update_typing_status st user.id true
  match process_message cfg tc providerResult extractResult st0 user message with
  | (st1, .ok (user_msg, assistant_msg)) =>
    (update_typing_status st1 user.id false,
     .ok (user_msg, assistant_msg,
       match assistant_msg.message_metadata with
       | some meta => ⟨meta.protocols_used, meta.memories_used⟩
       | none => ⟨[], 0⟩))
  | (st1, .error e) => (update_typing_status st1 user.id false, .error e)

/-- The assistant turns persisted in a message table. -/
def assistantRows (messages : List MessageRow) : List MessageRow :=
  messages.filter (fun m => m.role == ("assistant").toList)

theorem update_typing_messages (st : AppState) (user_id : Nat) (b : Bool) :
    (update_typing_status st user_id b).messages = st.messages := by
  rw [update_typing_status]
  cases st.typing.find? (fun t => t.user_id == user_id) <;> rfl

theorem get_typing_after_update (st : AppState) (user_id : Nat) (b : Bool) :
    (get_typing_status (update_typing_status st user_id b) user_id).is_typing = b := by
  rw [update_typing_status]
  cases hf : st.typing.find? (fun t => t.user_id == user_id) with
  | none =>
    dsimp only
    rw [get_typing_status]
    have hfnd : (st.typing ++ [(⟨user_id, b, st.now⟩ : TypingRow)]).find?
        (fun t => t.user_id == user_id) = some ⟨user_id, b, st.now⟩ := by
      rw [find?_append_of_none _ st.typing _ hf, List.find?_cons]
      simp
    rw [hfnd]
  | some indicator =>
    dsimp only
    rw [get_typing_status]
    have hp := List.find?_some hf
    have hfnd := find?_updateFirst (fun t => t.user_id == user_id)
      (fun t => { t with is_typing := b, updated_at := st.now }) st.typing indicator hf hp
    rw [hfnd]

theorem generate_response_error_ne_ok (cfg : LLMConfig) (tc : Text → Nat)
    (e : AppError) (messages : List Msg) (system_prompt : Text)
    (p : Text × MessageMeta) :
    generate_response cfg tc (.error e) messages system_prompt ≠ .ok p := by
  rw [generate_response]
  cases truncate_context tc messages system_prompt cfg.max_context_tokens
      cfg.max_response_tokens with
  | none => simp
  | some t => simp

theorem assistantRows_append_user (messages : List MessageRow) (row : MessageRow)
    (h : (row.role == ("assistant").toList) = false) :
    assistantRows (messages ++ [row]) = assistantRows messages := by
  rw [assistantRows, assistantRows, List.filter_append, List.filter_cons, h]
  simp

theorem process_message_error_shape (cfg : LLMConfig) (tc : Text → Nat) (e : AppError)
    (extractResult : List ExtractedMem) (st : AppState) (user : UserRow)
    (message : Text) :
    (∃ e2, (process_message cfg tc (.error e) extractResult st user message).2
      = .error e2) ∧
    (process_message cfg tc (.error e) extractResult st user message).1.messages
      = st.messages
        ++ [(create_message tc st user.id (("user").toList) message 0 none).2] := by
  rw [process_message]
  dsimp only
  split
  · next e2 heq =>
    exact ⟨⟨e2, rfl⟩, rfl⟩
  · next p heq =>
    exact absurd heq (generate_response_error_ne_ok cfg tc e _ _ _)

/-- C2: on every exit path of a chat turn — whatever the generation
outcome — the typing indicator ends in state false; and when the
generation call fails, the turn surfaces an error to its caller and
persists no assistant turn (the assistant rows of the store are exactly
those present before the call). -/
theorem c2_turn_exit_contract (cfg : LLMConfig) (tc : Text → Nat)
    (extractResult : List ExtractedMem) (st : AppState) (user : UserRow)
    (message : Text) :
    (∀ providerResult,
      (get_typing_status
        (send_message cfg tc providerResult extractResult st user message).1
        user.id).is_typing = false) ∧
    (∀ e : AppError, ∃ e2 : AppError,
      (send_message cfg tc (.error e) extractResult st user message).2 = .error e2) ∧
    (∀ e : AppError,
      assistantRows
        (send_message cfg tc (.error e) extractResult st user message).1.messages
        = assistantRows st.messages) := by
  refine ⟨?_, ?_, ?_⟩
  · intro providerResult
    rw [send_message]
    rcases hp : process_message cfg tc providerResult extractResult
        (update_typing_status st user.id true) user message with ⟨st1, r⟩
    rcases r with e | ⟨u, a⟩
    · exact get_typing_after_update st1 user.id false
    · exact get_typing_after_update st1 user.id false
  · intro e
    obtain ⟨⟨e2, he2⟩, _⟩ := process_message_error_shape cfg tc e extractResult
      (update_typing_status st user.id true) user message
    rw [send_message]
    rcases hp : process_message cfg tc (.error e) extractResult
        (update_typing_status st user.id true) user message with ⟨st1, r⟩
    rcases r with e3 | ⟨u, a⟩
    · exact ⟨e3, rfl⟩
    · rw [hp] at he2
      simp at he2
  · intro e
    obtain ⟨⟨e2, he2⟩, hmsgs⟩ := process_message_error_shape cfg tc e extractResult
      (update_typing_status st user.id true) user message
    rw [send_message]
    rcases hp : process_message cfg tc (.error e) extractResult
        (update_typing_status st user.id true) user message with ⟨st1, r⟩
    rcases r with e3 | ⟨u, a⟩
    · dsimp only
      rw [hp] at hmsgs
      dsimp only at hmsgs
      rw [update_typing_messages, hmsgs, update_typing_messages]
      exact assistantRows_append_user _ _ (by rfl)
    · rw [hp] at he2
      simp at he2

/-- C8 (amended): `process_message` retrieves facts through
`get_relevant_memories` with that function's default limit of 10 — not 5
as claimed — so on a successful turn the `memories_used` count recorded
in the assistant turn's metadata (and echoed in the route's context-usage
summary) is at most 10; the instruction text itself still includes at
most 5 of them. -/
theorem c8_memories_bound (cfg : LLMConfig) (tc : Text → Nat)
    (providerResult : Except AppError (Text × Nat))
    (extractResult : List ExtractedMem) (st : AppState) (user : UserRow)
    (message : Text) :
    ∀ md,
      ((process_message cfg tc providerResult extractResult st user message).2.toOption.bind
        (fun p => p.2.message_metadata)) = some md →
      md.memories_used ≤ 10 := by
  intro md hmd
  rw [process_message] at hmd
  dsimp only at hmd
  split at hmd
  · simp [Except.toOption] at hmd
  · next response_content meta heq =>
    simp only [Except.toOption, Option.some_bind, create_message] at hmd
    rw [Option.some.injEq] at hmd
    subst hmd
    dsimp only
    rw [get_relevant_memories]
    dsimp only
    rw [List.length_map, selected_memories]
    exact List.length_take_le 10 _

def cfgDemo : LLMConfig := ⟨("demo").toList, ("demo-mock").toList, 1000, 10⟩

/-- A trivial tokenizer instance for concrete runs. -/
def tc0 : Text → Nat := fun _ => 0

def sixMems : List Memory :=
  [⟨0, 1, ("health_goal").toList, ("k0").toList, ("v").toList, 6, 0, 0⟩,
   ⟨1, 1, ("health_goal").toList, ("k1").toList, ("v").toList, 5, 0, 0⟩,
   ⟨2, 1, ("preference").toList, ("k2").toList, ("v").toList, 4, 0, 0⟩,
   ⟨3, 1, ("lifestyle").toList, ("k3").toList, ("v").toList, 3, 0, 0⟩,
   ⟨4, 1, ("concern").toList, ("k4").toList, ("v").toList, 2, 0, 0⟩,
   ⟨5, 1, ("medical_history").toList, ("k5").toList, ("v").toList, 1, 0, 0⟩]

def st8 : AppState := ⟨[], sixMems, [], [], 0, 6, 100⟩

def user8 : UserRow :=
  ⟨1, ("u").toList, none, none, none, none, none, [], [], [], true⟩

/-- C8 counterexample: with six stored facts for the user, a successful
turn records `memories_used = 6` in the assistant turn's metadata — more
than the claimed cap of 5, because the orchestrator calls
`get_relevant_memories` without a limit argument and that default is 10. -/
theorem c8_counterexample :
    (((process_message cfgDemo tc0 (.ok (("ok").toList, 5)) [] st8 user8
        (("hi").toList)).2.toOption.bind
        (fun p => p.2.message_metadata)).map (fun md => md.memories_used))
      = some 6 ∧
    ¬ (6 ≤ 5) := by
  constructor
  · decide
  · decide

/-- C8 witness: the amended bound applied at the concrete six-fact run. -/
theorem c8_memories_bound_witness :
    (⟨("demo").toList, ("demo-mock").toList, 1, 1, 5, [], 6, false⟩
      : MessageMeta).memories_used ≤ 10 :=
  c8_memories_bound cfgDemo tc0 (.ok (("ok").toList, 5)) [] st8 user8 (("hi").toList)
    ⟨("demo").toList, ("demo-mock").toList, 1, 1, 5, [], 6, false⟩ (by decide)
